import Mathlib

/-!
Verification development for the go-infosight HTTP client library.

The development shallowly embeds the library's Go source:
  * the JSON data model and the `encoding/json` unmarshalling rules used by
    the library's struct types (`FaultResponse`, `APIResponse`, ...);
  * the client construction path `NewClient` with its functional options;
  * request preparation and execution in `Client.do` (header mutation,
    tracing);
  * the wellness resource accessor `GetObjectSet` / `GetIssues`;
  * the `BearerAuthTransport.RoundTrip` / `cloneRequest` shim, modelled with
    an explicit header store so that aliasing of the header map (deep copy
    versus mutation of the original request) is observable.

Strings are treated as sequences of characters; all string constants in the
source are ASCII, so byte-level operations of the Go `strings` package
coincide with the character-level operations used here.
-/

namespace Infosight

/-! ## JSON values

A parsed JSON document.  Numbers are modelled as integers: every JSON number
appearing in the bodies considered by the claims is integral, and the
library's integer struct fields reject fractional numbers anyway. -/

inductive Json where
  | null
  | bool (b : Bool)
  | num (n : Int)
  | str (s : String)
  | arr (elems : List Json)
  | obj (fields : List (String × Json))

/-! ## Character-level models of the Go `strings` helpers -/

/-- Model of `strings.HasPrefix s p` (byte level in Go, character level here;
coincides for the ASCII literals used by the library). -/
def goStartsWith (s p : String) : Bool :=
  p.data.isPrefixOf s.data

/-- Model of the Go slice expression `s[n:]` for ASCII strings: drop the
first `n` characters. -/
def goDropChars (s : String) (n : Nat) : String :=
  ⟨s.data.drop n⟩

/-- Model of `strings.TrimRight s "/"`: remove every trailing slash. -/
def goTrimRightSlashes (s : String) : String :=
  ⟨(s.data.reverse.dropWhile (fun c => c = '/')).reverse⟩

/-- Model of `strings.HasSuffix s "/"`: the last character is a slash. -/
def goHasSuffixSlash (s : String) : Bool :=
  s.data.getLast? == some '/'

/-- Number of consecutive slashes at the end of a string.  The spec's
"exactly one trailing slash" invariant is `trailingSlashCount s = 1`. -/
def trailingSlashCount (s : String) : Nat :=
  (s.data.reverse.takeWhile (fun c => c = '/')).length

/-- ASCII case folding of a single character, as used by `encoding/json`
when matching object keys against struct field names case-insensitively. -/
def foldChar (c : Char) : Char :=
  if 'A' ≤ c ∧ c ≤ 'Z' then Char.ofNat (c.toNat + 32) else c

/-- Case-insensitive match of a JSON object key against a (lower-case)
struct field tag, as performed by `encoding/json`. -/
def keyMatches (k tag : String) : Bool :=
  k.data.map foldChar == tag.data

/-! ## Errors

The error values the library can return.  `encoding/json` reports the first
unmarshalling error it encounters; the decoders below short-circuit at that
same first error, which is observationally equivalent because the library
discards the partially filled value whenever an error is returned. -/

inductive GoErr where
  | urlErr (msg : String)
  | jsonErr (msg : String)
  | transportErr (msg : String)
deriving DecidableEq, Repr

/-- Model of `net/url.Parse` restricted to the URLs handled in this
development: parsing fails on ASCII control characters (Go's
"invalid control character in URL" error) and otherwise returns the input
unchanged (the considered URLs contain no percent escapes or other parts
that `URL.String` would re-normalize). -/
def isCtl (c : Char) : Bool :=
  c.toNat < 32 || c.toNat = 127

def urlParse (s : String) : Except GoErr String :=
  if s.data.any isCtl then .error (.urlErr "net/url: invalid control character in URL")
  else .ok s

/-! ## The library's JSON struct types (from the Go source) -/

/-- FaultDetail detailed fault information (`errorcode` tag). -/
structure FaultDetail where
  errorCode : String := ""
deriving DecidableEq, Repr

/-- Fault returned if something went wrong (`faultstring`, `detail` tags). -/
structure Fault where
  faultString : String := ""
  detail : Option FaultDetail := none
deriving DecidableEq, Repr

/-- FaultResponse is returned by InfoSight on HTTP status above 399.
`status` and `statusCode` carry the untagged exported fields. -/
structure FaultResponse where
  status : String := ""
  statusCode : Int := 0
  fault : Option Fault := none
deriving DecidableEq, Repr

/-- The `Error()` method of `*FaultResponse`: the fault string when a fault
is present, else the HTTP status text. -/
def FaultResponse.errorString (e : FaultResponse) : String :=
  match e.fault with
  | some f => f.faultString
  | none => e.status

/-- Status result status (`message` tag). -/
structure StatusS where
  message : String := ""
deriving DecidableEq, Repr

/-- PagingInfo request details (`skip`, `limit` tags). -/
structure PagingInfo where
  skip : Int := 0
  limit : Int := 0
deriving DecidableEq, Repr

/-- FilterInfo filter details (`query` tag); the Go `map[string]string` is
modelled as an insertion-ordered association list, `none` being a nil map. -/
structure FilterInfo where
  query : Option (List (String × String)) := none
deriving DecidableEq, Repr

/-- Order is `[]string` in the source. -/
def OrderL := List String
deriving DecidableEq, Repr

/-- Sorting is `[]Order` in the source. -/
def SortingL := List OrderL
deriving DecidableEq, Repr

/-- RequestInfo request details (`paging`, `filter`, `sort` tags). -/
structure RequestInfo where
  paging : Option PagingInfo := none
  filter : Option FilterInfo := none
  sort : Option SortingL := none
deriving DecidableEq, Repr

/-- APIResponse returned on success (`status`, `request`, `data` tags).
`data` holds the untyped JSON records; `none` is a nil slice (field absent
or JSON null). -/
structure APIResponse where
  status : Option StatusS := none
  request : Option RequestInfo := none
  data : Option (List Json) := none

/-! ## `encoding/json` unmarshalling of those structs

Unknown object keys are ignored; duplicate keys are processed in order with
the later occurrence overwriting; JSON `null` is a no-op for string and
integer fields and sets pointer, slice and map fields to nil; a value of the
wrong JSON kind is an unmarshalling error. -/

/-- Unmarshal into a Go `string` field: `none` means "leave the field". -/
def decGoString : Json → Except GoErr (Option String)
  | .str s => .ok (some s)
  | .null => .ok none
  | _ => .error (.jsonErr "json: cannot unmarshal value into Go string")

/-- Unmarshal into a Go `int` field: `none` means "leave the field". -/
def decGoInt : Json → Except GoErr (Option Int)
  | .num n => .ok (some n)
  | .null => .ok none
  | _ => .error (.jsonErr "json: cannot unmarshal value into Go int")

def setFaultDetailField (acc : FaultDetail) (kv : String × Json) :
    Except GoErr FaultDetail :=
  if keyMatches kv.1 "errorcode" then
    (decGoString kv.2).map fun v =>
      match v with
      | some s => { acc with errorCode := s }
      | none => acc
  else .ok acc

/-- Unmarshal into a `*FaultDetail` field. -/
def decPtrFaultDetail : Json → Except GoErr (Option FaultDetail)
  | .null => .ok none
  | .obj fs => (fs.foldlM setFaultDetailField {}).map some
  | _ => .error (.jsonErr "json: cannot unmarshal value into FaultDetail")

def setFaultField (acc : Fault) (kv : String × Json) : Except GoErr Fault :=
  if keyMatches kv.1 "faultstring" then
    (decGoString kv.2).map fun v =>
      match v with
      | some s => { acc with faultString := s }
      | none => acc
  else if keyMatches kv.1 "detail" then
    (decPtrFaultDetail kv.2).map fun d => { acc with detail := d }
  else .ok acc

/-- Unmarshal into a `*Fault` field. -/
def decPtrFault : Json → Except GoErr (Option Fault)
  | .null => .ok none
  | .obj fs => (fs.foldlM setFaultField {}).map some
  | _ => .error (.jsonErr "json: cannot unmarshal value into Fault")

def setFaultResponseField (acc : FaultResponse) (kv : String × Json) :
    Except GoErr FaultResponse :=
  if keyMatches kv.1 "status" then
    (decGoString kv.2).map fun v =>
      match v with
      | some s => { acc with status := s }
      | none => acc
  else if keyMatches kv.1 "statuscode" then
    (decGoInt kv.2).map fun v =>
      match v with
      | some n => { acc with statusCode := n }
      | none => acc
  else if keyMatches kv.1 "fault" then
    (decPtrFault kv.2).map fun f => { acc with fault := f }
  else .ok acc

/-- Model of `json.NewDecoder(r.Body).Decode(&faultResponse)`.  The body is
carried as `some j` when its first JSON value parses as `j`, and `none` when
it is not valid JSON (syntax error or empty body). -/
def decodeIntoFaultResponse : Option Json → Except GoErr FaultResponse
  | none => .error (.jsonErr "json: syntax error in body")
  | some .null => .ok {}
  | some (.obj fs) => fs.foldlM setFaultResponseField {}
  | some _ => .error (.jsonErr "json: cannot unmarshal value into FaultResponse")

def setPagingField (acc : PagingInfo) (kv : String × Json) :
    Except GoErr PagingInfo :=
  if keyMatches kv.1 "skip" then
    (decGoInt kv.2).map fun v =>
      match v with
      | some n => { acc with skip := n }
      | none => acc
  else if keyMatches kv.1 "limit" then
    (decGoInt kv.2).map fun v =>
      match v with
      | some n => { acc with limit := n }
      | none => acc
  else .ok acc

def decPtrPaging : Json → Except GoErr (Option PagingInfo)
  | .null => .ok none
  | .obj fs => (fs.foldlM setPagingField {}).map some
  | _ => .error (.jsonErr "json: cannot unmarshal value into PagingInfo")

/-- Store a key in a Go map model: overwrite the existing entry, else append. -/
def mapStore (m : List (String × String)) (k v : String) :
    List (String × String) :=
  if m.any (fun p => p.1 == k) then
    m.map fun p => if p.1 == k then (k, v) else p
  else m ++ [(k, v)]

/-- Unmarshal into a Go `map[string]string`: each element is unmarshalled
into a fresh zero string, so a `null` element stores the empty string. -/
def decStringMap : Json → Except GoErr (Option (List (String × String)))
  | .null => .ok none
  | .obj fs =>
      (fs.foldlM (fun m kv => (decGoString kv.2).map fun v => mapStore m kv.1 (v.getD "")) []).map some
  | _ => .error (.jsonErr "json: cannot unmarshal value into map of string")

def setFilterField (acc : FilterInfo) (kv : String × Json) :
    Except GoErr FilterInfo :=
  if keyMatches kv.1 "query" then
    (decStringMap kv.2).map fun q => { acc with query := q }
  else .ok acc

def decPtrFilter : Json → Except GoErr (Option FilterInfo)
  | .null => .ok none
  | .obj fs => (fs.foldlM setFilterField {}).map some
  | _ => .error (.jsonErr "json: cannot unmarshal value into FilterInfo")

/-- Unmarshal one `Order` (`[]string`); a `null` element of the outer
sorting slice yields a nil `Order`, collapsed here to the empty list. -/
def decOrder : Json → Except GoErr OrderL
  | .null => .ok ([] : List String)
  | .arr xs => xs.mapM fun j => (decGoString j).map fun v => v.getD ""
  | _ => .error (.jsonErr "json: cannot unmarshal value into Order")

def decPtrSorting : Json → Except GoErr (Option SortingL)
  | .null => .ok none
  | .arr xs => (xs.mapM decOrder).map some
  | _ => .error (.jsonErr "json: cannot unmarshal value into Sorting")

def setRequestInfoField (acc : RequestInfo) (kv : String × Json) :
    Except GoErr RequestInfo :=
  if keyMatches kv.1 "paging" then
    (decPtrPaging kv.2).map fun p => { acc with paging := p }
  else if keyMatches kv.1 "filter" then
    (decPtrFilter kv.2).map fun f => { acc with filter := f }
  else if keyMatches kv.1 "sort" then
    (decPtrSorting kv.2).map fun s => { acc with sort := s }
  else .ok acc

def decPtrRequestInfo : Json → Except GoErr (Option RequestInfo)
  | .null => .ok none
  | .obj fs => (fs.foldlM setRequestInfoField {}).map some
  | _ => .error (.jsonErr "json: cannot unmarshal value into RequestInfo")

def setStatusField (acc : StatusS) (kv : String × Json) : Except GoErr StatusS :=
  if keyMatches kv.1 "message" then
    (decGoString kv.2).map fun v =>
      match v with
      | some s => { acc with message := s }
      | none => acc
  else .ok acc

def decPtrStatus : Json → Except GoErr (Option StatusS)
  | .null => .ok none
  | .obj fs => (fs.foldlM setStatusField {}).map some
  | _ => .error (.jsonErr "json: cannot unmarshal value into Status")

/-- Unmarshal into the `Data []interface{}` field: a JSON array becomes the
list of its (untyped) elements, `null` a nil slice. -/
def decDataField : Json → Except GoErr (Option (List Json))
  | .null => .ok none
  | .arr xs => .ok (some xs)
  | _ => .error (.jsonErr "json: cannot unmarshal value into slice of interface")

def setAPIResponseField (acc : APIResponse) (kv : String × Json) :
    Except GoErr APIResponse :=
  if keyMatches kv.1 "status" then
    (decPtrStatus kv.2).map fun s => { acc with status := s }
  else if keyMatches kv.1 "request" then
    (decPtrRequestInfo kv.2).map fun r => { acc with request := r }
  else if keyMatches kv.1 "data" then
    (decDataField kv.2).map fun d => { acc with data := d }
  else .ok acc

/-- Model of `json.NewDecoder(r.Body).Decode(&apiResponse)`. -/
def decodeIntoAPIResponse : Option Json → Except GoErr APIResponse
  | none => .error (.jsonErr "json: syntax error in body")
  | some .null => .ok {}
  | some (.obj fs) => fs.foldlM setAPIResponseField {}
  | some _ => .error (.jsonErr "json: cannot unmarshal value into APIResponse")

/-- The value of the body's `data` field as seen by the decoder: the fold
over the object's entries that touches only the `data` field. -/
def objDataField (fs : List (String × Json)) : Except GoErr (Option (List Json)) :=
  fs.foldlM
    (fun acc kv => if keyMatches kv.1 "data" then decDataField kv.2 else .ok acc)
    none

/-! ## HTTP requests and responses -/

/-- An HTTP response as observed by the library: status line text, numeric
status code, and the body (as the JSON value it parses to, or `none` when it
is not valid JSON). -/
structure HttpResponse where
  status : String := ""
  statusCode : Int := 0
  body : Option Json := none

/-- An outgoing HTTP request at the client level.  The header is the
contents of the request's header map; `ctx` is the identity of the
request's associated context. -/
structure Request where
  method : String := "GET"
  url : String := ""
  header : String → List String := fun _ => []
  body : Option String := none
  ctx : Nat := 0

/-- Model of `http.Header.Get`: first value for the key, else `""`.  The
keys used by the library are already in canonical MIME form, so no
canonicalization is modelled. -/
def headerGet (h : String → List String) (k : String) : String :=
  match h k with
  | v :: _ => v
  | [] => ""

/-- Model of `http.Header.Set`: replace the key's values by the single
given value. -/
def headerSet (h : String → List String) (k v : String) :
    String → List String :=
  fun k' => if k' = k then [v] else h k'

/-! ## Client construction (`NewClient` and the options) -/

def defaultServer : String := "https://infosight.hpe.com/apis/"

def defaultVersion : String := "v1"

/-- The context id of `context.Background()`. -/
def backgroundCtx : Nat := 0

/-- The client's configuration state (the fields of the Go `Client` that the
claims observe; the oauth token-provider plumbing is carried as its derived
`tokenURL`). -/
structure Client where
  server : String := ""
  userAgent : String := "go-infosight"
  user : String := ""
  password : String := ""
  trace : Bool := false
  ctx : Option Nat := none
  tokenURL : String := ""
deriving DecidableEq, Repr

/-- The configuration options, one constructor per `With...` function of the
source. -/
inductive ClientOption where
  | withTrace (trace : Bool)
  | withUserAgent (userAgent : String)
  | withContext (ctx : Nat)
  | withLogin (user password : String)
  | withBaseURL (baseURL : String)
deriving DecidableEq, Repr

/-- Whether an option is the user-agent option. -/
def ClientOption.isUserAgentOpt : ClientOption → Bool
  | .withUserAgent _ => true
  | _ => false

/-- Whether an option is the base-URL override option. -/
def ClientOption.isBaseURLOpt : ClientOption → Bool
  | .withBaseURL _ => true
  | _ => false

/-- Applying one option to the client under construction; `WithBaseURL`
parses the URL and stores its string form. -/
def applyOption : ClientOption → Client → Except GoErr Client
  | .withTrace b, c => .ok { c with trace := b }
  | .withUserAgent ua, c => .ok { c with userAgent := ua }
  | .withContext ctx, c => .ok { c with ctx := some ctx }
  | .withLogin u p, c => .ok { c with user := u, password := p }
  | .withBaseURL b, c =>
      match urlParse b with
      | .error e => .error e
      | .ok u => .ok { c with server := u }

/-- The option loop of `NewClient`: stop at the first failing option. -/
def applyOptions : List ClientOption → Client → Except GoErr Client
  | [], c => .ok c
  | o :: os, c =>
      match applyOption o c with
      | .error e => .error e
      | .ok c' => applyOptions os c'

/-- The post-option server normalization of `NewClient`: an empty server
falls back to the default, and a trailing slash is appended when (and only
when) the last character is not already a slash. -/
def normalizeServer (s : String) : String :=
  let s := if s = "" then defaultServer else s
  if goHasSuffixSlash s then s else s ++ "/"

/-- Model of `NewClient`: trim trailing slashes from the positional base
URL, run the options, default the context, normalize the server URL, and
derive the token endpoint. -/
def newClient (baseURL : String) (opts : List ClientOption) :
    Except GoErr Client :=
  let base := goTrimRightSlashes baseURL
  match applyOptions opts { server := base } with
  | .error e => .error e
  | .ok c =>
      let c := { c with ctx := some (c.ctx.getD backgroundCtx) }
      let c := { c with server := normalizeServer c.server }
      .ok { c with tokenURL := c.server ++ "oauth/token" }

/-! ## Request execution (`Client.do`)

The source first evaluates `req.WithContext(c.ctx)` but discards the
returned request, so the context of the request is in fact left unchanged;
it then sets the three standard headers in place. -/

def prepareRequest (c : Client) (req : Request) : Request :=
  { req with
      header :=
        headerSet
          (headerSet (headerSet req.header "User-Agent" c.userAgent)
            "Accept" "application/json")
          "Content-Type" "application/json" }

/-- The indentation string of the trace format (a newline and 28 spaces). -/
def traceIndent : List Char :=
  '\n' :: List.replicate 28 ' '

/-- Model of `strings.ReplaceAll(strings.TrimRight(dump, "\r\n"), "\n", ...)`
applied to a dump before logging. -/
def traceFormatDump (d : String) : String :=
  let trimmed := (d.data.reverse.dropWhile (fun c => c = '\r' ∨ c = '\n')).reverse
  ⟨trimmed.foldr (fun c acc => if c = '\n' then traceIndent ++ acc else c :: acc) []⟩

/-- One line emitted by `Tracef` in `Client.do`. -/
def traceLine (reqStr respStr : String) : String :=
  reqStr ++ "\n" ++ ⟨traceIndent⟩ ++ respStr ++ "\n"

/-- The log lines produced by the trace block of `Client.do`.  A failed
request dump leaves the request part empty; on a nil response the response
part is empty; a failed response dump suppresses the line entirely. -/
def traceLog (trace : Bool) (reqDump : Option String)
    (respDump : HttpResponse → Option String)
    (res : Except GoErr HttpResponse) : List String :=
  if trace then
    let reqStr :=
      match reqDump with
      | some d => traceFormatDump d
      | none => ""
    match res with
    | .error _ => [traceLine reqStr ""]
    | .ok r =>
        match respDump r with
        | some d => [traceLine reqStr (traceFormatDump d)]
        | none => []
  else []

/-- Model of `Client.do`: prepare the request, delegate to the inner
(authenticated) transport, emit the trace log, and return the transport's
result unchanged.  `transport` models `innerClient.Do` (at most one of
response and error is meaningful, hence `Except`); `dumpReq` and `dumpResp`
model `httputil.DumpRequestOut` and `httputil.DumpResponse`, with `none` a
dump failure. -/
def clientDo (c : Client) (transport : Request → Except GoErr HttpResponse)
    (dumpReq : Request → Option String)
    (dumpResp : HttpResponse → Option String) (req : Request) :
    Except GoErr HttpResponse × List String :=
  let req2 := prepareRequest c req
  let res := transport req2
  (res, traceLog c.trace (dumpReq req2) dumpResp res)

/-! ## The wellness resource accessor -/

/-- A value the library can hand back through the `interface{}` slot of
`GetObjectSet`. -/
inductive GoVal where
  | faultResp (fr : FaultResponse)
  | apiResp (a : APIResponse)

/-- Model of `NewFaultResponse`: decode the body into a `FaultResponse` and
stamp it with the response's status line and status code. -/
def newFaultResponse (r : HttpResponse) : Except GoErr FaultResponse :=
  (decodeIntoFaultResponse r.body).map fun fr =>
    { fr with status := r.status, statusCode := r.statusCode }

/-- The response handling of `GetObjectSet` (the part after `w.do`): on
status above 399 the statement `return NewFaultResponse(r)` forwards the
fault envelope as the first (success) value and the decode error as the
error value; otherwise the body is decoded as an `APIResponse`. -/
def processResponse (r : HttpResponse) : Option GoVal × Option GoErr :=
  if 399 < r.statusCode then
    match newFaultResponse r with
    | .ok fr => (some (.faultResp fr), none)
    | .error e => (none, some e)
  else
    match decodeIntoAPIResponse r.body with
    | .ok a => (some (.apiResp a), none)
    | .error e => (none, some e)

/-- The wellness façade: a client together with the API version. -/
structure Wellness where
  client : Client
  version : String

def newWellness (c : Client) : Wellness :=
  ⟨c, defaultVersion⟩

/-- The URL built by `GetObjectSet`'s `fmt.Sprintf`. -/
def objectSetURL (server version objectSet : String) : String :=
  server ++ "wellness/" ++ version ++ "/" ++ objectSet ++ "?domain=urn:nimble"

/-- The request created by `http.NewRequest("GET", queryURL, nil)`: a GET
with an empty header map, nil body and the background context. -/
def mkObjectSetRequest (server version objectSet : String) : Request :=
  { method := "GET"
    url := objectSetURL server version objectSet
    header := fun _ => []
    body := none
    ctx := backgroundCtx }

/-- Model of `Wellness.GetObjectSet`, parameterized by the behaviour of the
inner transport and of the trace dumpers.  Returns the `(value, error)`
pair of the Go function together with the emitted trace log. -/
def Wellness.getObjectSet (w : Wellness)
    (transport : Request → Except GoErr HttpResponse)
    (dumpReq : Request → Option String)
    (dumpResp : HttpResponse → Option String) (objectSet : String) :
    (Option GoVal × Option GoErr) × List String :=
  match urlParse (objectSetURL w.client.server w.version objectSet) with
  | .error e => ((none, some e), [])
  | .ok _ =>
      let req := mkObjectSetRequest w.client.server w.version objectSet
      match clientDo w.client transport dumpReq dumpResp req with
      | (.error e, log) => ((none, some e), log)
      | (.ok r, log) => (processResponse r, log)

/-- Model of `Wellness.GetIssues`: delegates to `GetObjectSet "issues"`. -/
def Wellness.getIssues (w : Wellness)
    (transport : Request → Except GoErr HttpResponse)
    (dumpReq : Request → Option String)
    (dumpResp : HttpResponse → Option String) :
    (Option GoVal × Option GoErr) × List String :=
  w.getObjectSet transport dumpReq dumpResp "issues"

/-! ## The bearer-auth transport shim

For the shim the aliasing of the header map matters (`cloneRequest` deep
copies the map precisely so that `Header.Set` on the clone does not mutate
the original request), so requests here carry a reference into an explicit
header store. -/

/-- A store of header maps; `next` is the next fresh reference. -/
structure HeaderStore where
  contents : Nat → String → List String
  next : Nat

/-- A request as seen by the shim: the header map is held by reference. -/
structure ShimRequest where
  method : String := "GET"
  url : String := ""
  headerRef : Nat := 0
  body : Option String := none
  ctx : Nat := 0
deriving DecidableEq, Repr

/-- A store/request pair is well formed when the request's header reference
is allocated (below `next`), so that a fresh allocation cannot alias it. -/
def allocated (st : HeaderStore) (r : ShimRequest) : Prop :=
  r.headerRef < st.next

/-- Model of `cloneRequest`: shallow copy of the struct, deep copy of the
header map into a fresh reference. -/
def cloneRequest (st : HeaderStore) (r : ShimRequest) :
    HeaderStore × ShimRequest :=
  (⟨fun i => if i = st.next then st.contents r.headerRef else st.contents i,
    st.next + 1⟩,
   { r with headerRef := st.next })

/-- In-place `Header.Set` on the header map behind a reference. -/
def storeSet (st : HeaderStore) (ref : Nat) (k v : String) : HeaderStore :=
  { st with
      contents := fun i =>
        if i = ref then headerSet (st.contents i) k v else st.contents i }

/-- Model of `BearerAuthTransport.RoundTrip` up to the delegation: read the
`Authorization` header, rewrite a `BearerToken ` scheme to `Bearer `, clone
the request and set the header on the clone.  The returned request is the
one forwarded to the underlying transport. -/
def roundTripForward (st : HeaderStore) (req : ShimRequest) :
    HeaderStore × ShimRequest :=
  let auth := headerGet (st.contents req.headerRef) "Authorization"
  let auth :=
    if goStartsWith auth "BearerToken " then "Bearer " ++ goDropChars auth 12
    else auth
  let c := cloneRequest st req
  (storeSet c.1 c.2.headerRef "Authorization" auth, c.2)

/-- The full `RoundTrip`: forward the cloned request to the underlying
transport `rt` and return its result unchanged. -/
def roundTrip (rt : HeaderStore → ShimRequest → Except GoErr HttpResponse)
    (st : HeaderStore) (req : ShimRequest) : Except GoErr HttpResponse :=
  let f := roundTripForward st req
  rt f.1 f.2

/-! ## Theorems -/

/-- Claim C8: for every request and every trace-flag setting, the result and
error returned by the client's do operation are exactly what the underlying
transport produced on the prepared request; neither enabling tracing nor any
failure of the request or response dump changes the returned result or
error. -/
theorem clientDo_result_unchanged_by_tracing (c : Client)
    (transport : Request → Except GoErr HttpResponse)
    (dumpReq : Request → Option String)
    (dumpResp : HttpResponse → Option String) (req : Request) :
    (clientDo c transport dumpReq dumpResp req).1
        = transport (prepareRequest c req) ∧
    ∀ (b : Bool) (dumpReq' : Request → Option String)
        (dumpResp' : HttpResponse → Option String),
      (clientDo { c with trace := b } transport dumpReq' dumpResp' req).1
        = (clientDo c transport dumpReq dumpResp req).1 := by
  exact ⟨rfl, fun _ _ _ => rfl⟩

/-- Claim C7: for every object-set name, the request built by `GetObjectSet`
is a GET whose URL is the server URL followed by "wellness/", the version,
"/", the name and the query string "?domain=urn:nimble"; request preparation
changes neither the method nor the URL of the request handed to the
transport; and `GetIssues` returns exactly `GetObjectSet` applied to
"issues". -/
theorem getObjectSet_url_and_getIssues (w : Wellness) (objectSet : String) :
    (mkObjectSetRequest w.client.server w.version objectSet).method = "GET" ∧
    (mkObjectSetRequest w.client.server w.version objectSet).url
        = w.client.server ++ "wellness/" ++ w.version ++ "/" ++ objectSet
            ++ "?domain=urn:nimble" ∧
    (∀ c : Client,
      (prepareRequest c (mkObjectSetRequest w.client.server w.version objectSet)).method
          = "GET" ∧
      (prepareRequest c (mkObjectSetRequest w.client.server w.version objectSet)).url
          = w.client.server ++ "wellness/" ++ w.version ++ "/" ++ objectSet
              ++ "?domain=urn:nimble") ∧
    ∀ (transport : Request → Except GoErr HttpResponse)
        (dumpReq : Request → Option String)
        (dumpResp : HttpResponse → Option String),
      w.getIssues transport dumpReq dumpResp
        = w.getObjectSet transport dumpReq dumpResp "issues" := by
  exact ⟨rfl, rfl, fun _ => ⟨rfl, rfl⟩, fun _ _ _ => rfl⟩

/-- Claim C2 (code bug, evaluated at the failing input): for a client whose
context is 5 and a request whose context is 0, the request handed to the
underlying transport by the do operation carries the three standard headers,
but it keeps its own context 0 instead of the client's 5 — the source
evaluates `req.WithContext(c.ctx)` and discards the returned request. -/
theorem clientDo_sets_headers_but_keeps_request_context :
    let c : Client := { server := "https://example.com/", ctx := some 5 }
    let req : Request :=
      { method := "GET", url := "u", header := fun _ => [], body := none,
        ctx := 0 }
    (prepareRequest c req).header "User-Agent" = ["go-infosight"] ∧
    (prepareRequest c req).header "Accept" = ["application/json"] ∧
    (prepareRequest c req).header "Content-Type" = ["application/json"] ∧
    (prepareRequest c req).ctx = 0 ∧
    c.ctx = some 5 ∧
    ∀ (transport : Request → Except GoErr HttpResponse)
        (dumpReq : Request → Option String)
        (dumpResp : HttpResponse → Option String),
      (clientDo c transport dumpReq dumpResp req).1
        = transport (prepareRequest c req) := by
  exact ⟨by decide, by decide, by decide, rfl, rfl, fun _ _ _ => rfl⟩

/-- A list is a prefix of itself followed by anything. -/
theorem isPrefixOf_append_self (l t : List Char) :
    l.isPrefixOf (l ++ t) = true := by
  induction l with
  | nil => cases t <;> rfl
  | cons a l ih => simp [List.isPrefixOf, ih]

/-- A string starts with any string it extends. -/
theorem goStartsWith_append (p v : String) :
    goStartsWith (p ++ v) p = true := by
  unfold goStartsWith
  rw [String.data_append]
  exact isPrefixOf_append_self p.data v.data

/-- Dropping the twelve characters of "BearerToken " from an authorization
value of that scheme leaves exactly the credential. -/
theorem goDropChars_bearer_token (v : String) :
    goDropChars ("BearerToken " ++ v) 12 = v := by
  unfold goDropChars
  rw [String.data_append]
  have h12 : ("BearerToken ".data).length = 12 := rfl
  rw [← h12, List.drop_left]

/-- A key that matches one lower-case tag cannot match a different one. -/
theorem keyMatches_of_match_ne (k t1 t2 : String)
    (h : keyMatches k t1 = true) (hne : t1.data ≠ t2.data) :
    keyMatches k t2 = false := by
  unfold keyMatches at h ⊢
  rw [eq_of_beq h]
  exact beq_eq_false_iff_ne.mpr hne

/-- One decoding step of the `APIResponse` fold tracks the `data` field: the
step leaves `data` unchanged unless the key matches `data`, in which case it
stores the decoded array. -/
theorem setAPIResponseField_data (acc acc' : APIResponse) (kv : String × Json)
    (h : setAPIResponseField acc kv = .ok acc') :
    (if keyMatches kv.1 "data" then decDataField kv.2 else .ok acc.data)
      = .ok acc'.data := by
  unfold setAPIResponseField at h
  split at h
  case isTrue h1 =>
    rw [if_neg (by rw [keyMatches_of_match_ne kv.1 "status" "data" h1 (by decide)]; exact Bool.false_ne_true)]
    cases hs : decPtrStatus kv.2 with
    | error e => rw [hs] at h; exact absurd h (by simp [Except.map])
    | ok s =>
        rw [hs] at h
        simp only [Except.map] at h
        cases h
        rfl
  case isFalse h1 =>
    split at h
    case isTrue h2 =>
      rw [if_neg (by rw [keyMatches_of_match_ne kv.1 "request" "data" h2 (by decide)]; exact Bool.false_ne_true)]
      cases hs : decPtrRequestInfo kv.2 with
      | error e => rw [hs] at h; exact absurd h (by simp [Except.map])
      | ok s =>
          rw [hs] at h
          simp only [Except.map] at h
          cases h
          rfl
    case isFalse h2 =>
      split at h
      case isTrue h3 =>
        rw [if_pos h3]
        cases hs : decDataField kv.2 with
        | error e => rw [hs] at h; exact absurd h (by simp [Except.map])
        | ok d =>
            rw [hs] at h
            simp only [Except.map] at h
            cases h
            rfl
      case isFalse h3 =>
        rw [if_neg h3]
        cases h
        rfl

/-- Along a successful `APIResponse` decode, folding only the `data`-field
steps over the same entries computes exactly the decoded `data`. -/
theorem apiFold_data (fs : List (String × Json)) :
    ∀ acc a : APIResponse,
      fs.foldlM setAPIResponseField acc = .ok a →
      fs.foldlM
          (fun d kv =>
            if keyMatches kv.1 "data" then decDataField kv.2 else .ok d)
          acc.data
        = .ok a.data := by
  induction fs with
  | nil =>
      intro acc a h
      simp only [List.foldlM_nil] at h ⊢
      cases h
      rfl
  | cons kv fs ih =>
      intro acc a h
      simp only [List.foldlM_cons] at h ⊢
      cases hstep : setAPIResponseField acc kv with
      | error e => rw [hstep] at h; exact absurd h (by simp [Bind.bind, Except.bind])
      | ok acc' =>
          rw [hstep] at h
          rw [setAPIResponseField_data acc acc' kv hstep]
          exact ih acc' a h

/-- A successful decode of an object body has `data` equal to the decoded
value of the body's `data` field (absent when the field is omitted). -/
theorem decode_data_field (fs : List (String × Json)) (a : APIResponse)
    (h : decodeIntoAPIResponse (some (.obj fs)) = .ok a) :
    objDataField fs = .ok a.data := by
  unfold decodeIntoAPIResponse at h
  unfold objDataField
  exact apiFold_data fs {} a h

/-- Claim C1 (code bug, evaluated at the failing input): on a 403 response
whose body is the valid fault envelope with fault string "forbidden",
`GetObjectSet` returns the decoded fault envelope as the first (success)
value together with a nil error — `return NewFaultResponse(r)` forwards the
fault as the success value, although `FaultResponse` implements the error
interface and its error text is the fault string. -/
theorem getObjectSet_fault_in_success_slot :
    let c : Client := { server := "https://example.com/api/" }
    let w : Wellness := ⟨c, "v1"⟩
    let resp : HttpResponse :=
      { status := "403 Forbidden", statusCode := 403,
        body := some (.obj [("fault", .obj [("faultstring", .str "forbidden")])]) }
    let fr : FaultResponse :=
      { status := "403 Forbidden", statusCode := 403,
        fault := some { faultString := "forbidden", detail := none } }
    (w.getObjectSet (fun _ => .ok resp) (fun _ => none) (fun _ => none)
        "issues").1
      = (some (.faultResp fr), none) ∧
    fr.errorString = "forbidden" := by
  exact ⟨rfl, rfl⟩

/-- Claim C6: for every response with HTTP status in [200,399] whose body
decodes as the envelope, `GetObjectSet` returns the decoded envelope with a
nil error, and the envelope's `data` equals the decoded `data` field of the
body (absent when omitted); when the body fails to decode as the envelope,
`GetObjectSet` returns a nil result and the decode error. -/
theorem getObjectSet_success_envelope (w : Wellness)
    (transport : Request → Except GoErr HttpResponse)
    (dumpReq : Request → Option String)
    (dumpResp : HttpResponse → Option String) (objectSet : String)
    (r : HttpResponse)
    (hurl : (objectSetURL w.client.server w.version objectSet).data.any isCtl
        = false)
    (ht : transport
        (prepareRequest w.client
          (mkObjectSetRequest w.client.server w.version objectSet)) = .ok r)
    (h200 : 200 ≤ r.statusCode) (h399 : r.statusCode ≤ 399) :
    (∀ a : APIResponse, decodeIntoAPIResponse r.body = .ok a →
        (w.getObjectSet transport dumpReq dumpResp objectSet).1
            = (some (.apiResp a), none) ∧
        ∀ fs : List (String × Json), r.body = some (.obj fs) →
          objDataField fs = .ok a.data) ∧
    ∀ e : GoErr, decodeIntoAPIResponse r.body = .error e →
      (w.getObjectSet transport dumpReq dumpResp objectSet).1
          = (none, some e) := by
  have hrun : (w.getObjectSet transport dumpReq dumpResp objectSet).1
      = processResponse r := by
    unfold Wellness.getObjectSet
    rw [urlParse]
    simp only [hurl, Bool.false_eq_true, if_false, clientDo, ht]
  have hsc : ¬ (399 < r.statusCode) := not_lt.mpr h399
  constructor
  · intro a ha
    constructor
    · rw [hrun]
      unfold processResponse
      rw [if_neg hsc, ha]
    · intro fs hfs
      rw [hfs] at ha
      exact decode_data_field fs a ha
  · intro e he
    rw [hrun]
    unfold processResponse
    rw [if_neg hsc, he]

/-- Witness for claim C6: a concrete 200 response whose body is the envelope
with one data record. -/
theorem getObjectSet_success_envelope_witness :
    let w : Wellness := ⟨{ server := "https://example.com/api/" }, "v1"⟩
    let body : Json := .obj [("data", .arr [.obj [("id", .num 1)]])]
    let resp : HttpResponse :=
      { status := "200 OK", statusCode := 200, body := some body }
    let transport : Request → Except GoErr HttpResponse := fun _ => .ok resp
    (∀ a : APIResponse, decodeIntoAPIResponse resp.body = .ok a →
        (w.getObjectSet transport (fun _ => none) (fun _ => none) "issues").1
            = (some (.apiResp a), none) ∧
        ∀ fs : List (String × Json), resp.body = some (.obj fs) →
          objDataField fs = .ok a.data) ∧
    ∀ e : GoErr, decodeIntoAPIResponse resp.body = .error e →
      (w.getObjectSet transport (fun _ => none) (fun _ => none) "issues").1
          = (none, some e) :=
  getObjectSet_success_envelope
    ⟨{ server := "https://example.com/api/" }, "v1"⟩ _ _ _ "issues" _
    (by decide) rfl (by decide) (by decide)

/-- Claim C4: for a request whose Authorization header is
"BearerToken <value>", the shim forwards a request whose Authorization
header is exactly "Bearer <value>" with the credential preserved; every
other header and every other request field is unchanged; the forwarded
request carries a fresh header map, and the original request's header map
is not mutated. -/
theorem roundTripForward_rewrites_bearer_scheme (st : HeaderStore)
    (req : ShimRequest) (v : String) (halloc : allocated st req)
    (hauth : st.contents req.headerRef "Authorization"
        = ["BearerToken " ++ v]) :
    (roundTripForward st req).1.contents
        (roundTripForward st req).2.headerRef "Authorization"
      = ["Bearer " ++ v] ∧
    (∀ k, k ≠ "Authorization" →
      (roundTripForward st req).1.contents
          (roundTripForward st req).2.headerRef k
        = st.contents req.headerRef k) ∧
    (roundTripForward st req).2.method = req.method ∧
    (roundTripForward st req).2.url = req.url ∧
    (roundTripForward st req).2.body = req.body ∧
    (roundTripForward st req).2.ctx = req.ctx ∧
    (roundTripForward st req).2.headerRef ≠ req.headerRef ∧
    ∀ k, (roundTripForward st req).1.contents req.headerRef k
        = st.contents req.headerRef k := by
  have hfresh : req.headerRef ≠ st.next := Nat.ne_of_lt halloc
  have hget : headerGet (st.contents req.headerRef) "Authorization"
      = "BearerToken " ++ v := by
    simp [headerGet, hauth]
  have hmap : (roundTripForward st req).1.contents
      (roundTripForward st req).2.headerRef
      = headerSet (st.contents req.headerRef) "Authorization"
          ("Bearer " ++ v) := by
    simp only [roundTripForward, cloneRequest, storeSet, hget,
      goStartsWith_append, goDropChars_bearer_token]
    simp
  refine ⟨?_, ?_, rfl, rfl, rfl, rfl, fun h => hfresh h.symm, ?_⟩
  · rw [hmap]
    simp [headerSet]
  · intro k hk
    rw [hmap]
    simp [headerSet, if_neg hk]
  · intro k
    simp only [roundTripForward, cloneRequest, storeSet]
    simp [if_neg hfresh]

/-- Witness for claim C4: a concrete store and request carrying
"BearerToken abc". -/
theorem roundTripForward_rewrites_bearer_scheme_witness :
    let st : HeaderStore :=
      ⟨fun i =>
        if i = 0 then
          fun k => if k = "Authorization" then ["BearerToken abc"] else ["v"]
        else fun _ => [], 1⟩
    let req : ShimRequest :=
      { method := "GET", url := "u", headerRef := 0, body := none, ctx := 0 }
    (roundTripForward st req).1.contents
        (roundTripForward st req).2.headerRef "Authorization"
      = ["Bearer " ++ "abc"] ∧
    (∀ k, k ≠ "Authorization" →
      (roundTripForward st req).1.contents
          (roundTripForward st req).2.headerRef k
        = st.contents req.headerRef k) ∧
    (roundTripForward st req).2.method = req.method ∧
    (roundTripForward st req).2.url = req.url ∧
    (roundTripForward st req).2.body = req.body ∧
    (roundTripForward st req).2.ctx = req.ctx ∧
    (roundTripForward st req).2.headerRef ≠ req.headerRef ∧
    ∀ k, (roundTripForward st req).1.contents req.headerRef k
        = st.contents req.headerRef k :=
  roundTripForward_rewrites_bearer_scheme _ _ "abc" Nat.zero_lt_one (by decide)

/-- Counterexample for claim C3: for a request with no Authorization header
at all, the forwarded request is not identical to the original in every
header — the shim's unconditional `Header.Set` adds an Authorization header
whose single value is the empty string. -/
theorem roundTripForward_not_pure_passthrough :
    let st : HeaderStore := ⟨fun _ => fun _ => [], 1⟩
    let req : ShimRequest :=
      { method := "GET", url := "u", headerRef := 0, body := none, ctx := 0 }
    st.contents req.headerRef "Authorization" = [] ∧
    (roundTripForward st req).1.contents
        (roundTripForward st req).2.headerRef "Authorization" = [""] ∧
    (roundTripForward st req).1.contents
        (roundTripForward st req).2.headerRef "Authorization"
      ≠ st.contents req.headerRef "Authorization" := by
  exact ⟨rfl, rfl, by decide⟩

/-- Claim C3 amended: the shim never changes the request's other fields and
never mutates the original request's header map; a request whose
Authorization header holds exactly one value that does not start with
"BearerToken " is forwarded with all header contents pointwise unchanged;
a request with no Authorization header is forwarded unchanged except that
the forwarded request carries an Authorization header whose single value is
the empty string. -/
theorem roundTripForward_passthrough_amended (st : HeaderStore)
    (req : ShimRequest) (halloc : allocated st req) :
    ((roundTripForward st req).2.method = req.method ∧
      (roundTripForward st req).2.url = req.url ∧
      (roundTripForward st req).2.body = req.body ∧
      (roundTripForward st req).2.ctx = req.ctx) ∧
    (∀ k, (roundTripForward st req).1.contents req.headerRef k
        = st.contents req.headerRef k) ∧
    (∀ a, st.contents req.headerRef "Authorization" = [a] →
      goStartsWith a "BearerToken " = false →
      ∀ k, (roundTripForward st req).1.contents
          (roundTripForward st req).2.headerRef k
        = st.contents req.headerRef k) ∧
    (st.contents req.headerRef "Authorization" = [] →
      (roundTripForward st req).1.contents
          (roundTripForward st req).2.headerRef "Authorization" = [""] ∧
      ∀ k, k ≠ "Authorization" →
        (roundTripForward st req).1.contents
            (roundTripForward st req).2.headerRef k
          = st.contents req.headerRef k) := by
  have hfresh : req.headerRef ≠ st.next := Nat.ne_of_lt halloc
  refine ⟨⟨rfl, rfl, rfl, rfl⟩, ?_, ?_, ?_⟩
  · intro k
    simp only [roundTripForward, cloneRequest, storeSet]
    simp [if_neg hfresh]
  · intro a ha hpre k
    have hget : headerGet (st.contents req.headerRef) "Authorization" = a := by
      simp [headerGet, ha]
    have hmap : (roundTripForward st req).1.contents
        (roundTripForward st req).2.headerRef
        = headerSet (st.contents req.headerRef) "Authorization" a := by
      simp only [roundTripForward, cloneRequest, storeSet, hget, hpre]
      simp
    rw [hmap]
    by_cases hk : k = "Authorization"
    · subst hk
      simp [headerSet, ha]
    · simp [headerSet, if_neg hk]
  · intro ha
    have hget : headerGet (st.contents req.headerRef) "Authorization" = "" := by
      simp [headerGet, ha]
    have hpre : goStartsWith "" "BearerToken " = false := by decide
    have hmap : (roundTripForward st req).1.contents
        (roundTripForward st req).2.headerRef
        = headerSet (st.contents req.headerRef) "Authorization" "" := by
      simp only [roundTripForward, cloneRequest, storeSet, hget, hpre]
      simp
    constructor
    · rw [hmap]
      simp [headerSet]
    · intro k hk
      rw [hmap]
      simp [headerSet, if_neg hk]

/-- Witness for claim C3 (amended): a concrete request whose single
Authorization value uses the Basic scheme. -/
theorem roundTripForward_passthrough_amended_witness :
    let st : HeaderStore :=
      ⟨fun i =>
        if i = 0 then
          fun k => if k = "Authorization" then ["Basic xyz"] else ["v"]
        else fun _ => [], 1⟩
    let req : ShimRequest :=
      { method := "GET", url := "u", headerRef := 0, body := none, ctx := 0 }
    ((roundTripForward st req).2.method = req.method ∧
      (roundTripForward st req).2.url = req.url ∧
      (roundTripForward st req).2.body = req.body ∧
      (roundTripForward st req).2.ctx = req.ctx) ∧
    (∀ k, (roundTripForward st req).1.contents req.headerRef k
        = st.contents req.headerRef k) ∧
    (∀ a, st.contents req.headerRef "Authorization" = [a] →
      goStartsWith a "BearerToken " = false →
      ∀ k, (roundTripForward st req).1.contents
          (roundTripForward st req).2.headerRef k
        = st.contents req.headerRef k) ∧
    (st.contents req.headerRef "Authorization" = [] →
      (roundTripForward st req).1.contents
          (roundTripForward st req).2.headerRef "Authorization" = [""] ∧
      ∀ k, k ≠ "Authorization" →
        (roundTripForward st req).1.contents
            (roundTripForward st req).2.headerRef k
          = st.contents req.headerRef k) :=
  roundTripForward_passthrough_amended _ _ Nat.zero_lt_one

/-- Taking with a predicate immediately after dropping with it yields
nothing. -/
theorem takeWhile_dropWhile_nil (p : Char → Bool) (l : List Char) :
    (l.dropWhile p).takeWhile p = [] := by
  induction l with
  | nil => rfl
  | cons a l ih =>
      simp only [List.dropWhile]
      cases h : p a <;> simp [List.takeWhile, h, ih]

/-- A string ends in a slash exactly when its trailing-slash count is
positive. -/
theorem goHasSuffixSlash_iff (s : String) :
    goHasSuffixSlash s = true ↔ 1 ≤ trailingSlashCount s := by
  unfold goHasSuffixSlash trailingSlashCount
  rw [← List.head?_reverse]
  cases hr : s.data.reverse with
  | nil => simp
  | cons a l =>
      by_cases h : a = '/'
      · subst h; simp [List.takeWhile_cons]
      · simp [List.takeWhile_cons, h]

/-- Trimming trailing slashes leaves no trailing slash. -/
theorem trailingSlashCount_trim (s : String) :
    trailingSlashCount (goTrimRightSlashes s) = 0 := by
  unfold goTrimRightSlashes trailingSlashCount
  simp only [List.reverse_reverse]
  rw [takeWhile_dropWhile_nil]
  rfl

/-- Appending one slash increments the trailing-slash count. -/
theorem trailingSlashCount_append_slash (s : String) :
    trailingSlashCount (s ++ "/") = trailingSlashCount s + 1 := by
  unfold trailingSlashCount
  rw [String.data_append]
  simp [List.reverse_append, List.takeWhile_cons]

/-- Normalization of a server URL without trailing slashes produces exactly
one trailing slash. -/
theorem normalizeServer_exact (s : String)
    (h0 : trailingSlashCount s = 0) :
    trailingSlashCount (normalizeServer s) = 1 := by
  unfold normalizeServer
  by_cases hs : s = ""
  · simp only [hs, if_pos rfl]
    decide
  · simp only [if_neg hs]
    have hsuf : goHasSuffixSlash s = false := by
      cases hq : goHasSuffixSlash s
      · rfl
      · have := (goHasSuffixSlash_iff s).mp hq
        omega
    rw [hsuf]
    simp only [Bool.false_eq_true, if_false]
    rw [trailingSlashCount_append_slash, h0]

/-- Normalization always produces at least one trailing slash. -/
theorem normalizeServer_ge_one (s : String) :
    1 ≤ trailingSlashCount (normalizeServer s) := by
  unfold normalizeServer
  cases hq : goHasSuffixSlash (if s = "" then defaultServer else s)
  · simp only [hq, Bool.false_eq_true, if_false]
    rw [trailingSlashCount_append_slash]
    omega
  · simp only [hq, if_true]
    exact (goHasSuffixSlash_iff _).mp hq

/-- Computation rule of the option loop on the empty list. -/
theorem applyOptions_nil (c : Client) : applyOptions [] c = .ok c := rfl

/-- Computation rule of the option loop on a first option. -/
theorem applyOptions_cons (o : ClientOption) (os : List ClientOption)
    (c : Client) :
    applyOptions (o :: os) c
      = match applyOption o c with
        | .error e => .error e
        | .ok c' => applyOptions os c' := rfl

/-- Destructuring a successful `newClient`: the stored server URL is the
normalization of the server produced by the option loop, and the user agent
is the one produced by the option loop. -/
theorem newClient_ok_server (baseURL : String) (opts : List ClientOption)
    (c : Client) (h : newClient baseURL opts = .ok c) :
    ∃ c1 : Client,
      applyOptions opts { server := goTrimRightSlashes baseURL } = .ok c1 ∧
      c.server = normalizeServer c1.server ∧ c.userAgent = c1.userAgent := by
  simp only [newClient] at h
  cases hap : applyOptions opts { server := goTrimRightSlashes baseURL } with
  | error e => rw [hap] at h; exact absurd h (by simp)
  | ok c1 =>
      rw [hap] at h
      cases h
      exact ⟨c1, rfl, rfl, rfl⟩

/-- The option loop does not change the server when no base-URL override is
among the options. -/
theorem applyOptions_server (opts : List ClientOption) :
    ∀ c c' : Client, opts.all (fun o => !o.isBaseURLOpt) = true →
      applyOptions opts c = .ok c' → c'.server = c.server := by
  induction opts with
  | nil =>
      intro c c' _ h
      cases h
      rfl
  | cons o os ih =>
      intro c c' hall h
      simp only [List.all_cons, Bool.and_eq_true] at hall
      rw [applyOptions_cons] at h
      cases o with
      | withTrace b =>
          simp only [applyOption] at h
          rw [ih _ _ hall.2 h]
      | withUserAgent ua =>
          simp only [applyOption] at h
          rw [ih _ _ hall.2 h]
      | withContext ctx =>
          simp only [applyOption] at h
          rw [ih _ _ hall.2 h]
      | withLogin u p =>
          simp only [applyOption] at h
          rw [ih _ _ hall.2 h]
      | withBaseURL b =>
          simp [ClientOption.isBaseURLOpt] at hall

/-- The option loop does not change the user agent when no user-agent
option is among the options. -/
theorem applyOptions_userAgent (opts : List ClientOption) :
    ∀ c c' : Client, opts.all (fun o => !o.isUserAgentOpt) = true →
      applyOptions opts c = .ok c' → c'.userAgent = c.userAgent := by
  induction opts with
  | nil =>
      intro c c' _ h
      cases h
      rfl
  | cons o os ih =>
      intro c c' hall h
      simp only [List.all_cons, Bool.and_eq_true] at hall
      rw [applyOptions_cons] at h
      cases o with
      | withTrace b =>
          simp only [applyOption] at h
          rw [ih _ _ hall.2 h]
      | withUserAgent ua =>
          simp [ClientOption.isUserAgentOpt] at hall
      | withContext ctx =>
          simp only [applyOption] at h
          rw [ih _ _ hall.2 h]
      | withLogin u p =>
          simp only [applyOption] at h
          rw [ih _ _ hall.2 h]
      | withBaseURL b =>
          simp only [applyOption] at h
          cases hu : urlParse b with
          | error e => rw [hu] at h; exact absurd h (by simp)
          | ok u =>
              rw [hu] at h
              rw [ih _ _ hall.2 h]

/-- The option loop over an appended list runs the first part and, on
success, continues with the second. -/
theorem applyOptions_append (l1 l2 : List ClientOption) (c : Client) :
    applyOptions (l1 ++ l2) c
      = match applyOptions l1 c with
        | .error e => .error e
        | .ok c' => applyOptions l2 c' := by
  induction l1 generalizing c with
  | nil => rw [List.nil_append, applyOptions_nil]
  | cons o os ih =>
      rw [List.cons_append, applyOptions_cons, applyOptions_cons]
      cases h : applyOption o c with
      | error e => rfl
      | ok c1 => exact ih c1

/-- Counterexample for claim C5: a base URL set through the base-URL
override option with two trailing slashes is stored unchanged, so the
resulting client's server URL does not end with exactly one slash. -/
theorem newClient_override_keeps_two_slashes :
    (newClient "" [ClientOption.withBaseURL "https://example.com//"]).map
        Client.server
      = .ok "https://example.com//" ∧
    trailingSlashCount "https://example.com//" = 2 ∧
    trailingSlashCount "https://example.com//" ≠ 1 := by
  exact ⟨rfl, by decide, by decide⟩

/-- Claim C5 amended: with no base-URL override, an empty base URL yields
the documented default server URL and any base URL is normalized to exactly
one trailing slash; with a base-URL override, the stored server URL is only
guaranteed to end in at least one slash (a slash is appended only when the
last character is not already a slash). -/
theorem newClient_trailing_slash_amended :
    (∀ (opts : List ClientOption) (c : Client),
        opts.all (fun o => !o.isBaseURLOpt) = true →
        newClient "" opts = .ok c →
        c.server = defaultServer) ∧
    (∀ (baseURL : String) (opts : List ClientOption) (c : Client),
        opts.all (fun o => !o.isBaseURLOpt) = true →
        newClient baseURL opts = .ok c →
        trailingSlashCount c.server = 1) ∧
    ∀ (baseURL : String) (opts : List ClientOption) (c : Client),
        newClient baseURL opts = .ok c →
        1 ≤ trailingSlashCount c.server := by
  refine ⟨?_, ?_, ?_⟩
  · intro opts c hall hc
    obtain ⟨c1, hap, hs, _⟩ := newClient_ok_server "" opts c hc
    have h1 : c1.server = goTrimRightSlashes "" := by
      exact applyOptions_server opts _ _ hall hap
    rw [hs, h1]
    decide
  · intro baseURL opts c hall hc
    obtain ⟨c1, hap, hs, _⟩ := newClient_ok_server baseURL opts c hc
    have h1 : c1.server = goTrimRightSlashes baseURL := by
      exact applyOptions_server opts _ _ hall hap
    rw [hs, h1]
    exact normalizeServer_exact _ (trailingSlashCount_trim baseURL)
  · intro baseURL opts c hc
    obtain ⟨c1, _, hs, _⟩ := newClient_ok_server baseURL opts c hc
    rw [hs]
    exact normalizeServer_ge_one c1.server

/-- Witness for claim C5 (amended): a concrete construction with a
positional base URL missing its trailing slash. -/
theorem newClient_trailing_slash_amended_witness :
    ({ server := "https://infosight.hpe.com/apis/", trace := true,
        ctx := some 0,
        tokenURL := "https://infosight.hpe.com/apis/oauth/token" } :
          Client).server
      = defaultServer ∧
    trailingSlashCount
        ({ server := "https://example.com/api/", trace := true,
            ctx := some 0,
            tokenURL := "https://example.com/api/oauth/token" } :
              Client).server
      = 1 ∧
    1 ≤ trailingSlashCount
        ({ server := "https://example.com/api/", trace := true,
            ctx := some 0,
            tokenURL := "https://example.com/api/oauth/token" } :
              Client).server :=
  ⟨newClient_trailing_slash_amended.1 [.withTrace true] _ (by decide) rfl,
   newClient_trailing_slash_amended.2.1 "https://example.com/api"
     [.withTrace true] _ (by decide) rfl,
   newClient_trailing_slash_amended.2.2 "https://example.com/api"
     [.withTrace true] _ rfl⟩

/-- Claim C9: when an option fails, client construction returns exactly
that option's error with no client, and no later option influences the
outcome. -/
theorem newClient_aborts_on_option_error (baseURL : String)
    (pre post : List ClientOption) (o : ClientOption) (c1 : Client)
    (e : GoErr)
    (hpre : applyOptions pre { server := goTrimRightSlashes baseURL }
        = .ok c1)
    (ho : applyOption o c1 = .error e) :
    newClient baseURL (pre ++ o :: post) = .error e ∧
    ∀ post' : List ClientOption,
      newClient baseURL (pre ++ o :: post') = .error e := by
  have key : ∀ l : List ClientOption,
      applyOptions (pre ++ o :: l) { server := goTrimRightSlashes baseURL }
        = .error e := by
    intro l
    rw [applyOptions_append, hpre]
    show applyOptions (o :: l) c1 = .error e
    rw [applyOptions_cons, ho]
  constructor
  · simp only [newClient]
    rw [key post]
  · intro post'
    simp only [newClient]
    rw [key post']

/-- Witness for claim C9: a base-URL override containing a control
character fails URL parsing and aborts construction. -/
theorem newClient_aborts_on_option_error_witness :
    newClient "b"
        ([ClientOption.withTrace true]
          ++ ClientOption.withBaseURL "\x00" :: [ClientOption.withUserAgent "x"])
      = .error (.urlErr "net/url: invalid control character in URL") ∧
    ∀ post' : List ClientOption,
      newClient "b"
          ([ClientOption.withTrace true]
            ++ ClientOption.withBaseURL "\x00" :: post')
        = .error (.urlErr "net/url: invalid control character in URL") :=
  newClient_aborts_on_option_error "b" [.withTrace true]
    [.withUserAgent "x"] (.withBaseURL "\x00")
    { server := goTrimRightSlashes "b", trace := true } _ rfl rfl

/-- Claim C10: a client constructed without the user-agent option prepares
every request with the User-Agent header value "go-infosight" (the default
set by `NewClient` and never named by the spec). -/
theorem clientDo_default_user_agent (baseURL : String)
    (opts : List ClientOption) (c : Client)
    (hua : opts.all (fun o => !o.isUserAgentOpt) = true)
    (hc : newClient baseURL opts = .ok c) (req : Request) :
    (prepareRequest c req).header "User-Agent" = ["go-infosight"] := by
  obtain ⟨c1, hap, _, hu⟩ := newClient_ok_server baseURL opts c hc
  have h1 : c1.userAgent = "go-infosight" := by
    exact applyOptions_userAgent opts _ _ hua hap
  have hcu : c.userAgent = "go-infosight" := by rw [hu, h1]
  simp [prepareRequest, headerSet, hcu]

/-- Witness for claim C10: the client built from the default server with
only the trace option prepares requests with the default user agent. -/
theorem clientDo_default_user_agent_witness :
    (prepareRequest
        ({ server := "https://infosight.hpe.com/apis/", trace := true,
            ctx := some 0,
            tokenURL := "https://infosight.hpe.com/apis/oauth/token" } :
              Client)
        {}).header "User-Agent"
      = ["go-infosight"] :=
  clientDo_default_user_agent "" [.withTrace true] _ (by decide) rfl {}

end Infosight
